import Mathlib

/-!
Verification of the PALF `LogEntryHeader` codec
(`src/logservice/palf/log_entry_header.cpp`).

The header is embedded shallowly: each C++ member of integral type is a
`Nat` holding the raw bit pattern of the machine word (int16_t, int32_t,
int64_t); wherever the source reads a field, the embedding reads the low
bits of the `Nat` (an explicit `% 2 ^ w`), and signed comparisons go
through an explicit two-complement view.  Buffers (`const char *` plus a
length) are `Option (List Nat)` — `none` is the NULL pointer, and each
list element is one byte read modulo 256.  Cursors (`int64_t pos`) are
`Nat`.  Fallible operations return an explicit error code together with
the mutated state, mirroring the `int ret` / in-out reference style of
the source.

External collaborators of the codec (the parity primitive, the payload
checksum, the SCN type and the fixed-width integer encoders) are not part
of the provided source; they are modelled from the specification, and
each such definition is marked `Modelled from the spec:` in its doc
comment.
-/

namespace ObPalf

/-- Error codes of the source (`ob_errno.h` constants used by the codec):
success, invalid argument, buffer not enough, invalid data. -/
inductive ErrCode where
  | OB_SUCCESS
  | OB_INVALID_ARGUMENT
  | OB_BUF_NOT_ENOUGH
  | OB_INVALID_DATA
deriving DecidableEq, Repr

open ErrCode

/-- XOR of a list of booleans. -/
def xorList (l : List Bool) : Bool := l.foldr Bool.xor false

/-- Modelled from the spec: `parity_check` (from `ob_parity_check.h`, not in
the provided source) computes the bit-parity of the raw `w`-bit
representation of a value — the XOR of all `w` low bits, `true` when an odd
number of them are set. -/
def parity_check (w n : Nat) : Bool :=
  xorList ((List.range w).map (fun i => n.testBit i))

/-- Modelled from the spec: `common::ob_crc64` (not in the provided source)
is a deterministic checksum of a byte sequence, 64 bits wide.  The concrete
mixing function is irrelevant to the codec; any deterministic function of
the bytes satisfies the collaborator contract. -/
def ob_crc64 (data : List Nat) : Nat :=
  data.foldl (fun acc b => (131 * acc + b % 256) % 2 ^ 64) 0

/-- Modelled from the spec: the sequence/commit value collaborator (`SCN`,
not in the provided source).  It owns a 64-bit numeric representation, an
`is_valid` predicate, a reset sentinel, and a fixed-size 8-byte
encode/decode pair.  The concrete sentinel value is a modelling choice; the
codec only relies on validity being a predicate on the value. -/
structure SCN where
  val : Nat
deriving DecidableEq, Repr

/-- Modelled from the spec: the invalid sentinel value of the sequence
type (all 64 bits set). -/
def SCN.OB_INVALID_SCN_VAL : Nat := 2 ^ 64 - 1

/-- Modelled from the spec: a default-constructed sequence value is the
invalid sentinel. -/
def SCN.new : SCN := ⟨SCN.OB_INVALID_SCN_VAL⟩

/-- Modelled from the spec: `SCN::reset` restores the invalid sentinel. -/
def SCN.reset (_ : SCN) : SCN := ⟨SCN.OB_INVALID_SCN_VAL⟩

/-- Modelled from the spec: `SCN::is_valid` — the value differs from the
invalid sentinel. -/
def SCN.is_valid (s : SCN) : Bool := decide (s.val ≠ SCN.OB_INVALID_SCN_VAL)

/-- Modelled from the spec: `SCN::get_val_for_logservice` exposes the
numeric representation used as parity input. -/
def SCN.get_val_for_logservice (s : SCN) : Nat := s.val

/-- Little-endian byte decomposition of the low `8 * w` bits of a value:
the `w` bytes written by the fixed-width encoder. -/
def toLEBytes : Nat → Nat → List Nat
  | 0, _ => []
  | w + 1, n => n % 256 :: toLEBytes w (n / 256)

/-- Value of a little-endian byte sequence; each byte is read modulo 256
(a `char` read). -/
def fromLEBytes : List Nat → Nat
  | [] => 0
  | b :: rest => b % 256 + 256 * fromLEBytes rest

/-- Overwrite `bytes.length` bytes of `buf` starting at `pos`. -/
def writeBytes (buf : List Nat) (pos : Nat) (bytes : List Nat) : List Nat :=
  buf.take pos ++ bytes ++ buf.drop (pos + bytes.length)

/-- Modelled from the spec: the fixed-width integer encoder
(`serialization::encode_i16/i32/i64` and `SCN::fixed_serialize`, not in the
provided source): deterministic, fixed-size (`w` bytes), fails exactly when
fewer than `w` bytes remain between the cursor and the buffer end, and
advances the cursor by `w` on success. -/
def encode_fixed (w : Nat) (buf : List Nat) (pos : Nat) (v : Nat) :
    Option (List Nat × Nat) :=
  if pos + w ≤ buf.length then some (writeBytes buf pos (toLEBytes w v), pos + w)
  else none

/-- Modelled from the spec: the fixed-width integer decoder
(`serialization::decode_i16/i32/i64` and `SCN::fixed_deserialize`, not in
the provided source): reads `w` bytes at the cursor, fails exactly when
fewer than `w` bytes remain, and advances the cursor by `w` on success. -/
def decode_fixed (w : Nat) (buf : List Nat) (pos : Nat) :
    Option (Nat × Nat) :=
  if pos + w ≤ buf.length then some (fromLEBytes ((buf.drop pos).take w), pos + w)
  else none

/-- Modelled from the spec: `serialization::encoded_length_i16` — fixed
2-byte width. -/
def encoded_length_i16 (_ : Nat) : Nat := 2

/-- Modelled from the spec: `serialization::encoded_length_i32` — fixed
4-byte width. -/
def encoded_length_i32 (_ : Nat) : Nat := 4

/-- Modelled from the spec: `serialization::encoded_length_i64` — fixed
8-byte width. -/
def encoded_length_i64 (_ : Nat) : Nat := 8

/-- Modelled from the spec: `SCN::get_fixed_serialize_size` — the fixed
8-byte width of the sequence value encoding. -/
def SCN.get_fixed_serialize_size (_ : SCN) : Nat := 8

/-- Signed 32-bit (two-complement) view of a raw bit pattern, used where
the source compares the `int32_t` member `log_size_`. -/
def int32View (n : Nat) : Int :=
  if n % 2 ^ 32 < 2 ^ 31 then ((n % 2 ^ 32 : Nat) : Int)
  else ((n % 2 ^ 32 : Nat) : Int) - 2 ^ 32

/-- The header of a PALF log entry (`LogEntryHeader`): raw bit patterns of
the members `int16_t magic_`, `int16_t version_`, `int32_t log_size_`,
`SCN scn_`, `int64_t data_checksum_`, `int64_t flag_`. -/
structure LogEntryHeader where
  magic_ : Nat
  version_ : Nat
  log_size_ : Nat
  scn_ : SCN
  data_checksum_ : Nat
  flag_ : Nat
deriving DecidableEq, Repr

/-- Modelled from the spec: the fixed 16-bit format identifier
`LogEntryHeader::MAGIC` (declared in the header file, not in the provided
source; the exact constant is immaterial to the codec). -/
def LogEntryHeader.MAGIC : Nat := 0x4C48

/-- Modelled from the spec: the current format version constant
`LOG_ENTRY_HEADER_VERSION` (declared in the header file, not in the
provided source). -/
def LOG_ENTRY_HEADER_VERSION : Nat := 1

/-- The default constructor `LogEntryHeader::LogEntryHeader()`: magic 0,
version 0, log size 0, default sequence value, checksum 0, flag 0. -/
def LogEntryHeader.new : LogEntryHeader :=
  { magic_ := 0, version_ := 0, log_size_ := 0, scn_ := SCN.new,
    data_checksum_ := 0, flag_ := 0 }

/-- `LogEntryHeader::reset`: magic 0, version 0, checksum 0, log size −1
(raw pattern `2 ^ 32 - 1`), sequence value reset, flag 0. -/
def LogEntryHeader.reset (h : LogEntryHeader) : LogEntryHeader :=
  { magic_ := 0, version_ := 0, log_size_ := 2 ^ 32 - 1,
    scn_ := h.scn_.reset, data_checksum_ := 0, flag_ := 0 }

/-- `LogEntryHeader::is_valid`: the magic matches, the signed log size is
positive and the sequence value is valid. -/
def LogEntryHeader.is_valid (h : LogEntryHeader) : Bool :=
  decide (h.magic_ % 2 ^ 16 = LogEntryHeader.MAGIC) &&
  decide (0 < int32View h.log_size_) && h.scn_.is_valid

/-- `LogEntryHeader::get_header_parity_check_res_`: the XOR chain of the
bit parities of magic, version, log size, the sequence value numeric
representation, the data checksum, and the flag with bit 0 cleared
(`flag_ & ~0x1`, embedded as `2 * (flag_ / 2)` on the raw pattern). -/
def LogEntryHeader.get_header_parity_check_res_ (h : LogEntryHeader) : Bool :=
  let b1 := parity_check 16 h.magic_
  let b2 := Bool.xor b1 (parity_check 16 h.version_)
  let b3 := Bool.xor b2 (parity_check 32 h.log_size_)
  let b4 := Bool.xor b3 (parity_check 64 h.scn_.get_val_for_logservice)
  let b5 := Bool.xor b4 (parity_check 64 h.data_checksum_)
  let tmp_flag := 2 * (h.flag_ / 2)
  Bool.xor b5 (parity_check 64 tmp_flag)

/-- `LogEntryHeader::update_header_checksum_`: if the recomputed parity is
true, set bit 0 of the flag (`flag_ |= 0x1`); otherwise leave the flag
alone. -/
def LogEntryHeader.update_header_checksum_ (h : LogEntryHeader) : LogEntryHeader :=
  if h.get_header_parity_check_res_ then { h with flag_ := h.flag_ ||| 1 } else h

/-- `LogEntryHeader::generate_header`: rejects a NULL payload, a
non-positive length or an invalid sequence value with
`OB_INVALID_ARGUMENT`; otherwise assigns magic, version, log size (the
`int64_t` length truncated to the raw `int32_t` pattern), the sequence
value and the payload checksum, then updates the header parity bit. -/
def LogEntryHeader.generate_header (h : LogEntryHeader)
    (log_data : Option (List Nat)) (data_len : Int) (scn : SCN) :
    ErrCode × LogEntryHeader :=
  match log_data with
  | none => (OB_INVALID_ARGUMENT, h)
  | some l =>
    if data_len ≤ 0 ∨ scn.is_valid = false then (OB_INVALID_ARGUMENT, h)
    else
      let h1 : LogEntryHeader :=
        { h with
          magic_ := LogEntryHeader.MAGIC,
          version_ := LOG_ENTRY_HEADER_VERSION,
          log_size_ := (data_len % 2 ^ 32).toNat,
          scn_ := scn,
          data_checksum_ := ob_crc64 (l.take data_len.toNat) }
      (OB_SUCCESS, h1.update_header_checksum_)

/-- `LogEntryHeader::check_header_checksum_`: the recomputed parity
(encoded as 1 or 0) equals the saved parity bit `flag_ & 0x1`. -/
def LogEntryHeader.check_header_checksum_ (h : LogEntryHeader) : Bool :=
  let header_checksum : Nat := if h.get_header_parity_check_res_ then 1 else 0
  let saved_header_checksum : Nat := h.flag_ % 2
  decide (header_checksum = saved_header_checksum)

/-- `LogEntryHeader::check_header_integrity`: structural validity plus the
header parity check. -/
def LogEntryHeader.check_header_integrity (h : LogEntryHeader) : Bool :=
  h.is_valid && h.check_header_checksum_

/-- `LogEntryHeader::check_integrity`: false for a NULL or non-positive
length payload, a magic mismatch, a header parity failure, or a payload
checksum mismatch; true otherwise.  Never inspects the log size or the
sequence value. -/
def LogEntryHeader.check_integrity (h : LogEntryHeader)
    (buf : Option (List Nat)) (data_len : Int) : Bool :=
  match buf with
  | none => false
  | some l =>
    if data_len ≤ 0 then false
    else if LogEntryHeader.MAGIC ≠ h.magic_ % 2 ^ 16 then false
    else if h.check_header_checksum_ = false then false
    else
      let tmp_data_checksum := ob_crc64 (l.take data_len.toNat)
      decide (h.data_checksum_ % 2 ^ 64 = tmp_data_checksum)

/-- `DEFINE_SERIALIZE(LogEntryHeader)`: rejects a NULL buffer or
non-positive capacity with `OB_INVALID_ARGUMENT`; then encodes magic,
version, log size, the sequence value, the data checksum and the flag in
order on a scratch cursor, mapping any encoder failure to
`OB_BUF_NOT_ENOUGH` with the caller cursor unchanged (bytes already
encoded remain written); commits the advanced cursor only on success. -/
def LogEntryHeader.serialize (h : LogEntryHeader)
    (buf : Option (List Nat)) (pos : Nat) : ErrCode × Option (List Nat) × Nat :=
  match buf with
  | none => (OB_INVALID_ARGUMENT, none, pos)
  | some b0 =>
    if b0.length = 0 then (OB_INVALID_ARGUMENT, some b0, pos)
    else
      match encode_fixed 2 b0 pos h.magic_ with
      | none => (OB_BUF_NOT_ENOUGH, some b0, pos)
      | some (b1, p1) =>
        match encode_fixed 2 b1 p1 h.version_ with
        | none => (OB_BUF_NOT_ENOUGH, some b1, pos)
        | some (b2, p2) =>
          match encode_fixed 4 b2 p2 h.log_size_ with
          | none => (OB_BUF_NOT_ENOUGH, some b2, pos)
          | some (b3, p3) =>
            match encode_fixed 8 b3 p3 h.scn_.get_val_for_logservice with
            | none => (OB_BUF_NOT_ENOUGH, some b3, pos)
            | some (b4, p4) =>
              match encode_fixed 8 b4 p4 h.data_checksum_ with
              | none => (OB_BUF_NOT_ENOUGH, some b4, pos)
              | some (b5, p5) =>
                match encode_fixed 8 b5 p5 h.flag_ with
                | none => (OB_BUF_NOT_ENOUGH, some b5, pos)
                | some (b6, p6) => (OB_SUCCESS, some b6, p6)

/-- `DEFINE_DESERIALIZE(LogEntryHeader)`: rejects a NULL buffer or
non-positive length with `OB_INVALID_ARGUMENT`; then decodes the six
fields in order on a scratch cursor, mapping any decoder failure to
`OB_BUF_NOT_ENOUGH` with the caller cursor unchanged (fields already
decoded remain assigned); if all fields decode but the header integrity
check fails, returns `OB_INVALID_DATA`; commits the advanced cursor only
on full success. -/
def LogEntryHeader.deserialize (h : LogEntryHeader)
    (buf : Option (List Nat)) (pos : Nat) : ErrCode × LogEntryHeader × Nat :=
  match buf with
  | none => (OB_INVALID_ARGUMENT, h, pos)
  | some b =>
    if b.length = 0 then (OB_INVALID_ARGUMENT, h, pos)
    else
      match decode_fixed 2 b pos with
      | none => (OB_BUF_NOT_ENOUGH, h, pos)
      | some (m, p1) =>
        let h1 := { h with magic_ := m }
        match decode_fixed 2 b p1 with
        | none => (OB_BUF_NOT_ENOUGH, h1, pos)
        | some (v, p2) =>
          let h2 := { h1 with version_ := v }
          match decode_fixed 4 b p2 with
          | none => (OB_BUF_NOT_ENOUGH, h2, pos)
          | some (s, p3) =>
            let h3 := { h2 with log_size_ := s }
            match decode_fixed 8 b p3 with
            | none => (OB_BUF_NOT_ENOUGH, h3, pos)
            | some (c, p4) =>
              let h4 := { h3 with scn_ := ⟨c⟩ }
              match decode_fixed 8 b p4 with
              | none => (OB_BUF_NOT_ENOUGH, h4, pos)
              | some (d, p5) =>
                let h5 := { h4 with data_checksum_ := d }
                match decode_fixed 8 b p5 with
                | none => (OB_BUF_NOT_ENOUGH, h5, pos)
                | some (f, p6) =>
                  let h6 := { h5 with flag_ := f }
                  if h6.check_header_integrity = false then
                    (OB_INVALID_DATA, h6, pos)
                  else (OB_SUCCESS, h6, p6)

/-- `DEFINE_GET_SERIALIZE_SIZE(LogEntryHeader)`: the sum of the fixed
encoded widths of the six fields. -/
def LogEntryHeader.get_serialize_size (h : LogEntryHeader) : Nat :=
  encoded_length_i16 h.magic_ + encoded_length_i16 h.version_ +
  encoded_length_i32 h.log_size_ + h.scn_.get_fixed_serialize_size +
  encoded_length_i64 h.data_checksum_ + encoded_length_i64 h.flag_

/-- The byte image a successful `serialize` writes for a header: the
little-endian fixed-width encodings of the six fields in wire order. -/
def encBytes (h : LogEntryHeader) : List Nat :=
  toLEBytes 2 h.magic_ ++ toLEBytes 2 h.version_ ++ toLEBytes 4 h.log_size_ ++
  toLEBytes 8 h.scn_.get_val_for_logservice ++ toLEBytes 8 h.data_checksum_ ++
  toLEBytes 8 h.flag_

/-- Flip one bit of a byte buffer: bit `k % 8` of byte `k / 8`. -/
def flipBitAt (buf : List Nat) (k : Nat) : List Nat :=
  buf.set (k / 8) (buf.getD (k / 8) 0 ^^^ 2 ^ (k % 8))

/-- XOR of the bit-parities of the bytes of a buffer — the parity of the
whole bit string the buffer spells out. -/
def byteParity (s : List Nat) : Bool :=
  xorList (s.map (fun b => parity_check 8 b))

/-- The header a full six-field decode starting at `pos` of buffer `b`
assigns (the state reached by the deserialize chain when every fixed-width
decode succeeds). -/
def decHeaderAt (b : List Nat) (pos : Nat) : LogEntryHeader :=
  { magic_ := fromLEBytes ((b.drop pos).take 2),
    version_ := fromLEBytes ((b.drop (pos + 2)).take 2),
    log_size_ := fromLEBytes ((b.drop (pos + 4)).take 4),
    scn_ := ⟨fromLEBytes ((b.drop (pos + 8)).take 8)⟩,
    data_checksum_ := fromLEBytes ((b.drop (pos + 16)).take 8),
    flag_ := fromLEBytes ((b.drop (pos + 24)).take 8) }

/-- The truncation of a header state to the machine widths of its fields:
the header state an exact decode of the encoded bytes reconstructs. -/
def truncHeader (g : LogEntryHeader) : LogEntryHeader :=
  { magic_ := g.magic_ % 2 ^ 16, version_ := g.version_ % 2 ^ 16,
    log_size_ := g.log_size_ % 2 ^ 32, scn_ := ⟨g.scn_.val % 2 ^ 64⟩,
    data_checksum_ := g.data_checksum_ % 2 ^ 64, flag_ := g.flag_ % 2 ^ 64 }

/-! ### Parity toolbox -/

theorem xorList_nil : xorList [] = false := rfl

theorem xorList_cons (a : Bool) (l : List Bool) :
    xorList (a :: l) = Bool.xor a (xorList l) := rfl

theorem xorList_append (l1 l2 : List Bool) :
    xorList (l1 ++ l2) = Bool.xor (xorList l1) (xorList l2) := by
  induction l1 with
  | nil => simp [xorList]
  | cons a t ih =>
    simp only [List.cons_append, xorList_cons, ih, Bool.xor_assoc]

theorem xorList_map_congr {l : List Nat} {f g : Nat → Bool}
    (h : ∀ i ∈ l, f i = g i) : xorList (l.map f) = xorList (l.map g) := by
  induction l with
  | nil => rfl
  | cons a t ih =>
    simp only [List.map_cons, xorList_cons]
    rw [h a (List.mem_cons_self a t), ih fun i hi => h i (List.mem_cons_of_mem a hi)]

theorem xorList_map_false {l : List Nat} {f : Nat → Bool}
    (h : ∀ i ∈ l, f i = false) : xorList (l.map f) = false := by
  induction l with
  | nil => rfl
  | cons a t ih =>
    simp only [List.map_cons, xorList_cons]
    rw [h a (List.mem_cons_self a t), ih fun i hi => h i (List.mem_cons_of_mem a hi)]
    rfl

theorem xorList_map_xor (l : List Nat) (f g : Nat → Bool) :
    xorList (l.map fun i => Bool.xor (f i) (g i)) =
      Bool.xor (xorList (l.map f)) (xorList (l.map g)) := by
  induction l with
  | nil => rfl
  | cons a t ih =>
    simp only [List.map_cons, xorList_cons, ih]
    cases f a <;> cases g a <;>
      simp [Bool.xor_assoc, Bool.xor_comm, Bool.xor_left_comm]

theorem xorList_set_not (L : List Bool) :
    ∀ (j : Nat) (hj : j < L.length),
      xorList (L.set j (!(L.get ⟨j, hj⟩))) = !xorList L := by
  induction L with
  | nil => intro j hj; exact absurd hj (by simp)
  | cons a t ih =>
    intro j hj
    cases j with
    | zero =>
      simp only [List.set_cons_zero, List.get, xorList_cons]
      cases a <;> simp
    | succ j =>
      simp only [List.set_cons_succ, List.get, xorList_cons]
      rw [ih j (by simpa using hj)]
      cases a <;> simp

theorem parity_check_mod (w n : Nat) :
    parity_check w (n % 2 ^ w) = parity_check w n := by
  unfold parity_check
  refine xorList_map_congr fun i hi => ?_
  rw [List.mem_range] at hi
  simp [Nat.testBit_mod_two_pow, hi]

theorem parity_check_two_pow {w m : Nat} (h : m < w) :
    parity_check w (2 ^ m) = true := by
  induction w with
  | zero => exact absurd h (by omega)
  | succ w ih =>
    unfold parity_check
    rw [List.range_succ, List.map_append, xorList_append]
    rcases Nat.lt_or_ge m w with hm | hm
    · have e1 : xorList ((List.range w).map fun i => (2 ^ m).testBit i) =
        parity_check w (2 ^ m) := rfl
      rw [e1, ih hm]
      simp [xorList, Nat.testBit_two_pow, Nat.ne_of_lt hm]
    · have hmw : m = w := by omega
      subst hmw
      rw [xorList_map_false (fun i hi => ?_)]
      · simp [xorList, Nat.testBit_two_pow]
      · rw [List.mem_range] at hi
        simp [Nat.testBit_two_pow, Nat.ne_of_gt hi]

theorem parity_check_xor (w a b : Nat) :
    parity_check w (a ^^^ b) =
      Bool.xor (parity_check w a) (parity_check w b) := by
  unfold parity_check
  rw [show ((List.range w).map fun i => (a ^^^ b).testBit i) =
      (List.range w).map fun i => Bool.xor (a.testBit i) (b.testBit i) from
    List.map_congr_left fun i _ => by simp [Nat.testBit_xor]]
  exact xorList_map_xor _ _ _

theorem parity_check_flip {m : Nat} (w n : Nat) (h : m < w) :
    parity_check w (n ^^^ 2 ^ m) = !parity_check w n := by
  rw [parity_check_xor, parity_check_two_pow h, Bool.xor_true]

theorem parity_check_clear (f : Nat) :
    parity_check 64 f = Bool.xor (f.testBit 0) (parity_check 64 (2 * (f / 2))) := by
  have hsplit : ∀ n : Nat, parity_check 64 n =
      Bool.xor (n.testBit 0)
        (xorList ((List.range 63).map fun i => n.testBit (1 + i))) := by
    intro n
    unfold parity_check
    rw [show (64 : Nat) = 1 + 63 from rfl, List.range_add, List.map_append,
      xorList_append, List.map_map]
    simp [xorList, Function.comp_def, List.range_succ]
  rw [hsplit f, hsplit (2 * (f / 2))]
  have hb0 : (2 * (f / 2)).testBit 0 = false := by
    simp [Nat.testBit_zero, Nat.mul_mod_right]
  have hbs : ∀ i ∈ List.range 63, (2 * (f / 2)).testBit (1 + i) = f.testBit (1 + i) := by
    intro i _
    rw [Nat.add_comm 1 i, Nat.testBit_add_one, Nat.testBit_add_one,
      Nat.mul_div_cancel_left (f / 2) (by norm_num)]
  rw [hb0, xorList_map_congr hbs]
  cases f.testBit 0 <;> simp

/-! ### Byte encoding toolbox -/

theorem toLEBytes_length (w n : Nat) : (toLEBytes w n).length = w := by
  induction w generalizing n with
  | zero => rfl
  | succ w ih => simp [toLEBytes, ih]

theorem fromLEBytes_toLEBytes (w n : Nat) :
    fromLEBytes (toLEBytes w n) = n % 2 ^ (8 * w) := by
  induction w generalizing n with
  | zero => simp [toLEBytes, fromLEBytes, Nat.mod_one]
  | succ w ih =>
    simp only [toLEBytes, fromLEBytes, ih]
    have h1 : 2 ^ (8 * (w + 1)) = 256 * 2 ^ (8 * w) := by
      rw [show 8 * (w + 1) = 8 + 8 * w by ring, pow_add]
      norm_num
    rw [h1, Nat.mod_mul, Nat.mod_mod_of_dvd n (by norm_num : (256 : Nat) ∣ 256)]

theorem toLEBytes_fromLEBytes (l : List Nat) :
    toLEBytes l.length (fromLEBytes l) = l.map (· % 256) := by
  induction l with
  | nil => rfl
  | cons b t ih =>
    simp only [List.length_cons, toLEBytes, fromLEBytes, List.map_cons]
    have hhead : (b % 256 + 256 * fromLEBytes t) % 256 = b % 256 := by
      rw [Nat.mul_comm 256 (fromLEBytes t), Nat.add_mul_mod_self_right,
        Nat.mod_mod_of_dvd b (by norm_num : (256 : Nat) ∣ 256)]
    have htail : (b % 256 + 256 * fromLEBytes t) / 256 = fromLEBytes t := by
      rw [Nat.mul_comm 256 (fromLEBytes t),
        Nat.add_mul_div_right _ _ (by norm_num : (0 : Nat) < 256),
        Nat.div_eq_of_lt (Nat.mod_lt b (by norm_num)), Nat.zero_add]
    rw [hhead, htail, ih]

theorem fromLEBytes_lt (l : List Nat) : fromLEBytes l < 2 ^ (8 * l.length) := by
  induction l with
  | nil => simp [fromLEBytes]
  | cons b t ih =>
    simp only [fromLEBytes, List.length_cons]
    have h1 : 2 ^ (8 * (t.length + 1)) = 256 * 2 ^ (8 * t.length) := by
      rw [show 8 * (t.length + 1) = 8 + 8 * t.length by ring, pow_add]
      norm_num
    have hb : b % 256 < 256 := Nat.mod_lt b (by norm_num)
    calc b % 256 + 256 * fromLEBytes t
        < 256 + 256 * fromLEBytes t := by omega
      _ = 256 * (fromLEBytes t + 1) := by ring
      _ ≤ 256 * 2 ^ (8 * t.length) := Nat.mul_le_mul_left 256 ih
      _ = 2 ^ (8 * (t.length + 1)) := h1.symm

theorem byteParity_nil : byteParity [] = false := rfl

theorem byteParity_cons (b : Nat) (t : List Nat) :
    byteParity (b :: t) = Bool.xor (parity_check 8 b) (byteParity t) := rfl

theorem byteParity_append (l1 l2 : List Nat) :
    byteParity (l1 ++ l2) = Bool.xor (byteParity l1) (byteParity l2) := by
  unfold byteParity
  rw [List.map_append, xorList_append]

theorem byteParity_map_mod (l : List Nat) :
    byteParity (l.map (· % 256)) = byteParity l := by
  unfold byteParity
  rw [List.map_map]
  refine xorList_map_congr fun b _ => ?_
  have : (256 : Nat) = 2 ^ 8 := by norm_num
  simp only [Function.comp]
  rw [this, parity_check_mod]

theorem parity_check_toLEBytes (w n : Nat) :
    parity_check (8 * w) n = byteParity (toLEBytes w n) := by
  induction w generalizing n with
  | zero => rfl
  | succ w ih =>
    simp only [toLEBytes, byteParity_cons]
    have h1 : parity_check (8 * (w + 1)) n =
        Bool.xor (parity_check 8 n)
          (xorList ((List.range (8 * w)).map fun i => n.testBit (8 + i))) := by
      unfold parity_check
      rw [show 8 * (w + 1) = 8 + 8 * w by ring, List.range_add, List.map_append,
        xorList_append, List.map_map]
      simp [xorList, Function.comp_def, List.range_succ]
    have h2 : ∀ i ∈ List.range (8 * w), n.testBit (8 + i) = (n / 256).testBit i := by
      intro i _
      have hsh : n / 256 = n >>> 8 := by
        rw [Nat.shiftRight_eq_div_pow]
      rw [hsh, Nat.testBit_shiftRight]
    have h3 : parity_check 8 n = parity_check 8 (n % 256) := by
      have h256 : (256 : Nat) = 2 ^ 8 := by norm_num
      rw [h256, parity_check_mod]
    have h4 : xorList ((List.range (8 * w)).map (n / 256).testBit) =
        parity_check (8 * w) (n / 256) := rfl
    rw [h1, xorList_map_congr h2, h3, h4, ih]

theorem byteParity_eq_parity_fromLEBytes (l : List Nat) :
    byteParity l = parity_check (8 * l.length) (fromLEBytes l) := by
  rw [parity_check_toLEBytes, toLEBytes_fromLEBytes, byteParity_map_mod]

theorem byteParity_flipBitAt (s : List Nat) (k : Nat) (h : k / 8 < s.length) :
    byteParity (flipBitAt s k) = !byteParity s := by
  unfold flipBitAt byteParity
  have hget : s.getD (k / 8) 0 = s.get ⟨k / 8, h⟩ := by
    simp [List.getD_eq_getElem?_getD, List.getElem?_eq_getElem h]
  rw [hget, List.map_set]
  have hflip : parity_check 8 (s.get ⟨k / 8, h⟩ ^^^ 2 ^ (k % 8)) =
      !((s.map fun b => parity_check 8 b).get
        ⟨k / 8, by simpa using h⟩) := by
    rw [parity_check_flip 8 _ (Nat.mod_lt k (by norm_num))]
    congr 1
    simp [List.get_eq_getElem]
  rw [hflip, xorList_set_not]

/-! ### Encoder and decoder characterizations -/

theorem encode_fixed_eq_some {w : Nat} {buf : List Nat} {pos v : Nat}
    {b2 : List Nat} {p2 : Nat}
    (h : encode_fixed w buf pos v = some (b2, p2)) :
    pos + w ≤ buf.length ∧ b2 = writeBytes buf pos (toLEBytes w v) ∧
      p2 = pos + w := by
  unfold encode_fixed at h
  split at h
  · rename_i hle
    simp only [Option.some.injEq, Prod.mk.injEq] at h
    exact ⟨hle, h.1.symm, h.2.symm⟩
  · simp at h

theorem decode_fixed_eq_some {w : Nat} {buf : List Nat} {pos : Nat}
    {x p2 : Nat} (h : decode_fixed w buf pos = some (x, p2)) :
    pos + w ≤ buf.length ∧ x = fromLEBytes ((buf.drop pos).take w) ∧
      p2 = pos + w := by
  unfold decode_fixed at h
  split at h
  · rename_i hle
    simp only [Option.some.injEq, Prod.mk.injEq] at h
    exact ⟨hle, h.1.symm, h.2.symm⟩
  · simp at h

theorem decode_fixed_of_le {w : Nat} {buf : List Nat} {pos : Nat}
    (h : pos + w ≤ buf.length) :
    decode_fixed w buf pos = some (fromLEBytes ((buf.drop pos).take w), pos + w) := by
  unfold decode_fixed
  rw [if_pos h]

theorem writeBytes_length {buf : List Nat} {pos : Nat} {bytes : List Nat}
    (h : pos + bytes.length ≤ buf.length) :
    (writeBytes buf pos bytes).length = buf.length := by
  unfold writeBytes
  simp only [List.length_append, List.length_take, List.length_drop]
  omega

theorem writeBytes_zero (buf bytes : List Nat) :
    writeBytes buf 0 bytes = bytes ++ buf.drop bytes.length := by
  unfold writeBytes
  simp

theorem writeBytes_cons (x : Nat) (buf : List Nat) (pos : Nat) (bytes : List Nat) :
    writeBytes (x :: buf) (pos + 1) bytes = x :: writeBytes buf pos bytes := by
  unfold writeBytes
  rw [show pos + 1 + bytes.length = pos + bytes.length + 1 by ring]
  simp

theorem writeBytes_writeBytes (a c : List Nat) :
    ∀ (pos : Nat) (buf : List Nat), pos + a.length ≤ buf.length →
      writeBytes (writeBytes buf pos a) (pos + a.length) c =
        writeBytes buf pos (a ++ c) := by
  intro pos
  induction pos with
  | zero =>
    intro buf h
    rw [writeBytes_zero, writeBytes_zero, Nat.zero_add]
    unfold writeBytes
    rw [List.take_left' rfl, List.drop_append, List.drop_drop, List.length_append,
      List.append_assoc]
  | succ p ih =>
    intro buf h
    match buf with
    | [] => simp at h
    | x :: buf =>
      have h' : p + a.length ≤ buf.length := by simp at h; omega
      rw [writeBytes_cons x buf p a,
        show p + 1 + a.length = p + a.length + 1 by ring,
        writeBytes_cons x (writeBytes buf p a) (p + a.length) c,
        writeBytes_cons x buf p (a ++ c), ih buf h']

theorem encBytes_length (h : LogEntryHeader) : (encBytes h).length = 32 := by
  unfold encBytes
  simp [toLEBytes_length]
theorem writeBytes_nil (buf : List Nat) (pos : Nat) :
    writeBytes buf pos [] = buf := by
  unfold writeBytes
  simp

/-- Inversion of one step of the serialize chain: encoding one more field
into a buffer whose first `k` bytes after `pos` already hold `acc`. -/
theorem encode_fixed_step_inv {w v : Nat} {b acc : List Nat} {pos k : Nat}
    {b2 : List Nat} {p2 : Nat}
    (hk : acc.length = k) (hacc : pos + k ≤ b.length)
    (h : encode_fixed w (writeBytes b pos acc) (pos + k) v = some (b2, p2)) :
    pos + k + w ≤ b.length ∧ b2 = writeBytes b pos (acc ++ toLEBytes w v) ∧
      (acc ++ toLEBytes w v).length = k + w ∧ p2 = pos + k + w := by
  have hlen : (writeBytes b pos acc).length = b.length :=
    writeBytes_length (by omega)
  obtain ⟨hl, hb, hp⟩ := encode_fixed_eq_some h
  rw [hlen] at hl
  refine ⟨hl, ?_, by simp [hk, toLEBytes_length], hp⟩
  have e := writeBytes_writeBytes acc (toLEBytes w v) pos b (by omega)
  rw [hk] at e
  rw [hb]
  exact e

/-- A successful serialize writes exactly the canonical byte image of the
header at the cursor and advances the cursor by 32. -/
theorem serialize_eq_success {h : LogEntryHeader} {b : List Nat} {pos : Nat}
    {ob : Option (List Nat)} {p2 : Nat}
    (hs : h.serialize (some b) pos = (OB_SUCCESS, ob, p2)) :
    pos + 32 ≤ b.length ∧
      ob = some (b.take pos ++ encBytes h ++ b.drop (pos + 32)) ∧
      p2 = pos + 32 := by
  have lA : (toLEBytes 2 h.magic_).length = 2 := toLEBytes_length _ _
  simp only [LogEntryHeader.serialize] at hs
  split at hs
  · simp at hs
  rename_i hne
  split at hs
  · simp at hs
  rename_i b1 p1 he1
  obtain ⟨hl1, hb1, hp1⟩ := encode_fixed_eq_some he1
  subst hb1 hp1
  split at hs
  · simp at hs
  rename_i b2 p2a he2
  obtain ⟨hl2, hb2, hlen2, hp2⟩ := encode_fixed_step_inv lA (by omega) he2
  subst hb2 hp2
  split at hs
  · simp at hs
  rename_i b3 p3 he3
  rw [show pos + 2 + 2 = pos + 4 by omega] at he3
  obtain ⟨hl3, hb3, hlen3, hp3⟩ := encode_fixed_step_inv hlen2 (by omega) he3
  subst hb3 hp3
  split at hs
  · simp at hs
  rename_i b4 p4 he4
  rw [show pos + 4 + 4 = pos + 8 by omega] at he4
  obtain ⟨hl4, hb4, hlen4, hp4⟩ := encode_fixed_step_inv hlen3 (by omega) he4
  subst hb4 hp4
  split at hs
  · simp at hs
  rename_i b5 p5 he5
  rw [show pos + 8 + 8 = pos + 16 by omega] at he5
  obtain ⟨hl5, hb5, hlen5, hp5⟩ := encode_fixed_step_inv hlen4 (by omega) he5
  subst hb5 hp5
  split at hs
  · simp at hs
  rename_i b6 p6 he6
  rw [show pos + 16 + 8 = pos + 24 by omega] at he6
  obtain ⟨hl6, hb6, hlen6, hp6⟩ := encode_fixed_step_inv hlen5 (by omega) he6
  subst hb6 hp6
  simp only [Prod.mk.injEq] at hs
  obtain ⟨-, hob, hp⟩ := hs
  have hacc6 : toLEBytes 2 h.magic_ ++ toLEBytes 2 h.version_ ++
      toLEBytes 4 h.log_size_ ++ toLEBytes 8 h.scn_.get_val_for_logservice ++
      toLEBytes 8 h.data_checksum_ ++ toLEBytes 8 h.flag_ = encBytes h := by
    simp [encBytes, List.append_assoc]
  refine ⟨by omega, ?_, by omega⟩
  rw [← hob]
  have hw : writeBytes b pos (toLEBytes 2 h.magic_ ++ toLEBytes 2 h.version_ ++
      toLEBytes 4 h.log_size_ ++ toLEBytes 8 h.scn_.get_val_for_logservice ++
      toLEBytes 8 h.data_checksum_ ++ toLEBytes 8 h.flag_) =
      b.take pos ++ encBytes h ++ b.drop (pos + 32) := by
    unfold writeBytes
    rw [hacc6, encBytes_length]
  rw [hw]

/-- Exhaustive cursor behavior of serialize: either it succeeds and the
cursor advances by 32, or it fails and the cursor is unchanged. -/
theorem serialize_result (h : LogEntryHeader) (buf : Option (List Nat)) (pos : Nat) :
    ((h.serialize buf pos).1 = OB_SUCCESS ∧ (h.serialize buf pos).2.2 = pos + 32) ∨
    ((h.serialize buf pos).1 ≠ OB_SUCCESS ∧ (h.serialize buf pos).2.2 = pos) := by
  cases buf with
  | none => right; simp [LogEntryHeader.serialize]
  | some b =>
    simp only [LogEntryHeader.serialize]
    split
    · right; simp
    split
    · right; simp
    rename_i b1 p1 he1
    split
    · right; simp
    rename_i b2 p2 he2
    split
    · right; simp
    rename_i b3 p3 he3
    split
    · right; simp
    rename_i b4 p4 he4
    split
    · right; simp
    rename_i b5 p5 he5
    split
    · right; simp
    rename_i b6 p6 he6
    left
    refine ⟨rfl, ?_⟩
    have q1 := (encode_fixed_eq_some he1).2.2
    have q2 := (encode_fixed_eq_some he2).2.2
    have q3 := (encode_fixed_eq_some he3).2.2
    have q4 := (encode_fixed_eq_some he4).2.2
    have q5 := (encode_fixed_eq_some he5).2.2
    have q6 := (encode_fixed_eq_some he6).2.2
    show p6 = pos + 32
    omega

/-- When at least 32 bytes remain, the deserialize chain decodes all six
fields and the outcome is decided by the integrity check on the decoded
header. -/
theorem deserialize_of_le {h : LogEntryHeader} {b : List Nat} {pos : Nat}
    (hne : ¬ b.length = 0) (hlen : pos + 32 ≤ b.length) :
    h.deserialize (some b) pos =
      if (decHeaderAt b pos).check_header_integrity = false
      then (OB_INVALID_DATA, decHeaderAt b pos, pos)
      else (OB_SUCCESS, decHeaderAt b pos, pos + 32) := by
  have d1 : decode_fixed 2 b pos =
      some (fromLEBytes ((b.drop pos).take 2), pos + 2) :=
    decode_fixed_of_le (by omega)
  have d2 : decode_fixed 2 b (pos + 2) =
      some (fromLEBytes ((b.drop (pos + 2)).take 2), pos + 2 + 2) :=
    decode_fixed_of_le (by omega)
  rw [show pos + 2 + 2 = pos + 4 by omega] at d2
  have d3 : decode_fixed 4 b (pos + 4) =
      some (fromLEBytes ((b.drop (pos + 4)).take 4), pos + 4 + 4) :=
    decode_fixed_of_le (by omega)
  rw [show pos + 4 + 4 = pos + 8 by omega] at d3
  have d4 : decode_fixed 8 b (pos + 8) =
      some (fromLEBytes ((b.drop (pos + 8)).take 8), pos + 8 + 8) :=
    decode_fixed_of_le (by omega)
  rw [show pos + 8 + 8 = pos + 16 by omega] at d4
  have d5 : decode_fixed 8 b (pos + 16) =
      some (fromLEBytes ((b.drop (pos + 16)).take 8), pos + 16 + 8) :=
    decode_fixed_of_le (by omega)
  rw [show pos + 16 + 8 = pos + 24 by omega] at d5
  have d6 : decode_fixed 8 b (pos + 24) =
      some (fromLEBytes ((b.drop (pos + 24)).take 8), pos + 24 + 8) :=
    decode_fixed_of_le (by omega)
  rw [show pos + 24 + 8 = pos + 32 by omega] at d6
  simp only [LogEntryHeader.deserialize, if_neg hne, d1, d2, d3, d4, d5, d6]
  rfl

/-- Decoding past a prefix of known length sees only the tail. -/
theorem decHeaderAt_prefix {pre rest : List Nat} {pos : Nat}
    (hpre : pre.length = pos) :
    decHeaderAt (pre ++ rest) pos = decHeaderAt rest 0 := by
  unfold decHeaderAt
  have d0 : ∀ k : Nat, (pre ++ rest).drop (pos + k) = rest.drop k := by
    intro k
    rw [← hpre, List.drop_append]
  have dA : (pre ++ rest).drop pos = rest := List.drop_left' hpre
  rw [dA, d0 2, d0 4, d0 8, d0 16, d0 24]
  simp

/-- Decoding ignores bytes beyond the 32-byte header image. -/
theorem decHeaderAt_append_of_le {mid post : List Nat} (hm : 32 ≤ mid.length) :
    decHeaderAt (mid ++ post) 0 = decHeaderAt mid 0 := by
  have key : ∀ k w : Nat, k + w ≤ 32 →
      ((mid ++ post).drop k).take w = (mid.drop k).take w := by
    intro k w hkw
    rw [List.drop_append_of_le_length (by omega),
      List.take_append_of_le_length (by simp [List.length_drop]; omega)]
  unfold decHeaderAt
  simp only [Nat.zero_add]
  rw [key 0 2 (by omega), key 2 2 (by omega), key 4 4 (by omega),
    key 8 8 (by omega), key 16 8 (by omega), key 24 8 (by omega)]

/-! ### Generate and checksum-update characterizations -/

theorem ob_crc64_lt (data : List Nat) : ob_crc64 data < 2 ^ 64 := by
  unfold ob_crc64
  have aux : ∀ (l : List Nat) (acc : Nat), acc < 2 ^ 64 →
      l.foldl (fun acc b => (131 * acc + b % 256) % 2 ^ 64) acc < 2 ^ 64 := by
    intro l
    induction l with
    | nil => intro acc h; simpa using h
    | cons b t ih =>
      intro acc h
      exact ih _ (Nat.mod_lt _ (by norm_num))
  exact aux data 0 (by norm_num)

theorem generate_eq_success {h : LogEntryHeader} {l : List Nat} {data_len : Int}
    {scn : SCN} {h2 : LogEntryHeader}
    (hg : h.generate_header (some l) data_len scn = (OB_SUCCESS, h2)) :
    0 < data_len ∧ scn.is_valid = true ∧
      h2 = LogEntryHeader.update_header_checksum_
        { h with magic_ := LogEntryHeader.MAGIC,
                 version_ := LOG_ENTRY_HEADER_VERSION,
                 log_size_ := (data_len % 2 ^ 32).toNat,
                 scn_ := scn,
                 data_checksum_ := ob_crc64 (l.take data_len.toNat) } := by
  simp only [LogEntryHeader.generate_header] at hg
  split at hg
  · simp at hg
  · rename_i hcond
    simp only [not_or, Int.not_le, Bool.not_eq_false] at hcond
    simp only [Prod.mk.injEq] at hg
    exact ⟨hcond.1, hcond.2, hg.2.symm⟩

theorem or_one_div_two (n : Nat) : (n ||| 1) / 2 = n / 2 := by
  apply Nat.eq_of_testBit_eq
  intro i
  rw [Nat.testBit_div_two, Nat.testBit_div_two, Nat.testBit_or]
  have h1 : (1 : Nat).testBit (i + 1) = false := by
    rw [show (1 : Nat) = 2 ^ 0 by norm_num, Nat.testBit_two_pow]
    simp
  rw [h1, Bool.or_false]

theorem or_one_mod_two (n : Nat) : (n ||| 1) % 2 = 1 := by
  have h0 : (n ||| 1).testBit 0 = true := by
    rw [Nat.testBit_or]
    simp [Nat.testBit_zero]
  rw [Nat.testBit_zero] at h0
  exact of_decide_eq_true h0

theorem testBit_zero_false_mod_two {n : Nat} (h : n.testBit 0 = false) :
    n % 2 = 0 := by
  rw [Nat.testBit_zero] at h
  rcases Nat.mod_two_eq_zero_or_one n with h2 | h2
  · exact h2
  · simp [h2] at h

theorem parity_res_or_one (g : LogEntryHeader) :
    ({ g with flag_ := g.flag_ ||| 1 } : LogEntryHeader).get_header_parity_check_res_ =
      g.get_header_parity_check_res_ := by
  simp only [LogEntryHeader.get_header_parity_check_res_]
  rw [or_one_div_two]

/-- After the parity-bit update, the stored parity bit always matches the
recomputation, provided bit 0 of the flag was clear beforehand. -/
theorem update_checksum_sound {g : LogEntryHeader} (hb : g.flag_.testBit 0 = false) :
    g.update_header_checksum_.check_header_checksum_ = true := by
  have h0 : g.flag_ % 2 = 0 := testBit_zero_false_mod_two hb
  unfold LogEntryHeader.update_header_checksum_
  split
  · rename_i hp
    have hres := parity_res_or_one g
    rw [hp] at hres
    simp [LogEntryHeader.check_header_checksum_, hres, or_one_mod_two]
  · rename_i hp
    rw [Bool.not_eq_true] at hp
    simp [LogEntryHeader.check_header_checksum_, hp, h0]

theorem parity_clear_mod (f : Nat) :
    parity_check 64 (2 * (f % 2 ^ 64 / 2)) = parity_check 64 (2 * (f / 2)) := by
  unfold parity_check
  refine xorList_map_congr fun i hi => ?_
  rw [List.mem_range] at hi
  cases i with
  | zero => simp [Nat.testBit_zero, Nat.mul_mod_right]
  | succ j =>
    have lhs : (2 * (f % 2 ^ 64 / 2)).testBit (j + 1) = f.testBit (j + 1) := by
      rw [Nat.testBit_add_one, Nat.mul_div_cancel_left _ (by norm_num : 0 < 2),
        Nat.testBit_div_two, Nat.testBit_mod_two_pow]
      simp [hi]
    have rhs : (2 * (f / 2)).testBit (j + 1) = f.testBit (j + 1) := by
      rw [Nat.testBit_add_one, Nat.mul_div_cancel_left _ (by norm_num : 0 < 2),
        Nat.testBit_div_two]
    rw [lhs, rhs]

theorem parity_res_trunc (g : LogEntryHeader) :
    (truncHeader g).get_header_parity_check_res_ =
      g.get_header_parity_check_res_ := by
  simp only [truncHeader, LogEntryHeader.get_header_parity_check_res_,
    SCN.get_val_for_logservice]
  rw [parity_check_mod, parity_check_mod, parity_check_mod, parity_check_mod,
    parity_check_mod, parity_clear_mod]

theorem check_checksum_trunc (g : LogEntryHeader) :
    (truncHeader g).check_header_checksum_ = g.check_header_checksum_ := by
  simp only [LogEntryHeader.check_header_checksum_]
  rw [parity_res_trunc]
  have hm : (truncHeader g).flag_ % 2 = g.flag_ % 2 := by
    show g.flag_ % 2 ^ 64 % 2 = g.flag_ % 2
    exact Nat.mod_mod_of_dvd _ (dvd_pow_self 2 (by norm_num : (64 : Nat) ≠ 0))
  rw [hm]

/-- Decoding the canonical byte image of a header reconstructs the header
truncated to its machine field widths. -/
theorem decHeaderAt_encBytes (g : LogEntryHeader) :
    decHeaderAt (encBytes g) 0 = truncHeader g := by
  have lA : (toLEBytes 2 g.magic_).length = 2 := toLEBytes_length _ _
  have lB : (toLEBytes 2 g.version_).length = 2 := toLEBytes_length _ _
  have lC : (toLEBytes 4 g.log_size_).length = 4 := toLEBytes_length _ _
  have lD : (toLEBytes 8 g.scn_.get_val_for_logservice).length = 8 :=
    toLEBytes_length _ _
  have lE : (toLEBytes 8 g.data_checksum_).length = 8 := toLEBytes_length _ _
  have lF : (toLEBytes 8 g.flag_).length = 8 := toLEBytes_length _ _
  have d2 : (encBytes g).drop 2 = toLEBytes 2 g.version_ ++
      (toLEBytes 4 g.log_size_ ++ (toLEBytes 8 g.scn_.get_val_for_logservice ++
      (toLEBytes 8 g.data_checksum_ ++ toLEBytes 8 g.flag_))) := by
    unfold encBytes
    rw [List.append_assoc, List.append_assoc, List.append_assoc,
      List.append_assoc, List.drop_left' lA]
  have d4 : (encBytes g).drop 4 = toLEBytes 4 g.log_size_ ++
      (toLEBytes 8 g.scn_.get_val_for_logservice ++
      (toLEBytes 8 g.data_checksum_ ++ toLEBytes 8 g.flag_)) := by
    rw [show (4 : Nat) = 2 + 2 from rfl, ← List.drop_drop, d2,
      List.drop_left' lB]
  have d8 : (encBytes g).drop 8 = toLEBytes 8 g.scn_.get_val_for_logservice ++
      (toLEBytes 8 g.data_checksum_ ++ toLEBytes 8 g.flag_) := by
    rw [show (8 : Nat) = 4 + 4 from rfl, ← List.drop_drop, d4,
      List.drop_left' lC]
  have d16 : (encBytes g).drop 16 = toLEBytes 8 g.data_checksum_ ++
      toLEBytes 8 g.flag_ := by
    rw [show (16 : Nat) = 8 + 8 from rfl, ← List.drop_drop, d8,
      List.drop_left' lD]
  have d24 : (encBytes g).drop 24 = toLEBytes 8 g.flag_ := by
    rw [show (24 : Nat) = 16 + 8 from rfl, ← List.drop_drop, d16,
      List.drop_left' lE]
  have t0 : (encBytes g).take 2 = toLEBytes 2 g.magic_ := by
    unfold encBytes
    rw [List.append_assoc, List.append_assoc, List.append_assoc,
      List.append_assoc]
    exact List.take_left' lA
  have t2 : ((encBytes g).drop 2).take 2 = toLEBytes 2 g.version_ := by
    rw [d2]; exact List.take_left' lB
  have t4 : ((encBytes g).drop 4).take 4 = toLEBytes 4 g.log_size_ := by
    rw [d4]; exact List.take_left' lC
  have t8 : ((encBytes g).drop 8).take 8 =
      toLEBytes 8 g.scn_.get_val_for_logservice := by
    rw [d8]; exact List.take_left' lD
  have t16 : ((encBytes g).drop 16).take 8 = toLEBytes 8 g.data_checksum_ := by
    rw [d16]; exact List.take_left' lE
  have t24 : ((encBytes g).drop 24).take 8 = toLEBytes 8 g.flag_ := by
    rw [d24]; exact List.take_of_length_le (le_of_eq lF)
  unfold decHeaderAt truncHeader
  simp only [Nat.zero_add, List.drop_zero]
  rw [t0, t2, t4, t8, t16, t24, fromLEBytes_toLEBytes, fromLEBytes_toLEBytes,
    fromLEBytes_toLEBytes, fromLEBytes_toLEBytes, fromLEBytes_toLEBytes,
    fromLEBytes_toLEBytes]
  simp only [LogEntryHeader.mk.injEq, SCN.mk.injEq, SCN.get_val_for_logservice]

/-- The stored parity bit of a decoded 32-byte image checks out exactly
when the image has even total bit parity. -/
theorem byteParity_eq_of_checksum {s : List Nat} (h32 : s.length = 32) :
    ((decHeaderAt s 0).check_header_checksum_ = true) ↔ (byteParity s = false) := by
  have hsA : s = s.take 2 ++ s.drop 2 := (List.take_append_drop 2 s).symm
  have h2 : s.drop 2 = (s.drop 2).take 2 ++ s.drop 4 := by
    have e := (List.take_append_drop 2 (s.drop 2)).symm
    rw [List.drop_drop] at e
    norm_num at e
    exact e
  have h4 : s.drop 4 = (s.drop 4).take 4 ++ s.drop 8 := by
    have e := (List.take_append_drop 4 (s.drop 4)).symm
    rw [List.drop_drop] at e
    norm_num at e
    exact e
  have h8 : s.drop 8 = (s.drop 8).take 8 ++ s.drop 16 := by
    have e := (List.take_append_drop 8 (s.drop 8)).symm
    rw [List.drop_drop] at e
    norm_num at e
    exact e
  have h16 : s.drop 16 = (s.drop 16).take 8 ++ s.drop 24 := by
    have e := (List.take_append_drop 8 (s.drop 16)).symm
    rw [List.drop_drop] at e
    norm_num at e
    exact e
  have h24 : (s.drop 24).take 8 = s.drop 24 :=
    List.take_of_length_le (by simp [List.length_drop, h32])
  have lA : (s.take 2).length = 2 := by simp [List.length_take, h32]
  have lB : ((s.drop 2).take 2).length = 2 := by
    simp [List.length_take, List.length_drop, h32]
  have lC : ((s.drop 4).take 4).length = 4 := by
    simp [List.length_take, List.length_drop, h32]
  have lD : ((s.drop 8).take 8).length = 8 := by
    simp [List.length_take, List.length_drop, h32]
  have lE : ((s.drop 16).take 8).length = 8 := by
    simp [List.length_take, List.length_drop, h32]
  have lF : (s.drop 24).length = 8 := by simp [List.length_drop, h32]
  have hbp : byteParity s =
      Bool.xor (byteParity (s.take 2))
        (Bool.xor (byteParity ((s.drop 2).take 2))
          (Bool.xor (byteParity ((s.drop 4).take 4))
            (Bool.xor (byteParity ((s.drop 8).take 8))
              (Bool.xor (byteParity ((s.drop 16).take 8))
                (byteParity (s.drop 24)))))) := by
    conv_lhs => rw [hsA]
    rw [byteParity_append]
    conv_lhs => rw [h2]
    rw [byteParity_append]
    conv_lhs => rw [h4]
    rw [byteParity_append]
    conv_lhs => rw [h8]
    rw [byteParity_append]
    conv_lhs => rw [h16]
    rw [byteParity_append]
  have pA : byteParity (s.take 2) = parity_check 16 (fromLEBytes (s.take 2)) := by
    rw [byteParity_eq_parity_fromLEBytes, lA]
  have pB : byteParity ((s.drop 2).take 2) =
      parity_check 16 (fromLEBytes ((s.drop 2).take 2)) := by
    rw [byteParity_eq_parity_fromLEBytes, lB]
  have pC : byteParity ((s.drop 4).take 4) =
      parity_check 32 (fromLEBytes ((s.drop 4).take 4)) := by
    rw [byteParity_eq_parity_fromLEBytes, lC]
  have pD : byteParity ((s.drop 8).take 8) =
      parity_check 64 (fromLEBytes ((s.drop 8).take 8)) := by
    rw [byteParity_eq_parity_fromLEBytes, lD]
  have pE : byteParity ((s.drop 16).take 8) =
      parity_check 64 (fromLEBytes ((s.drop 16).take 8)) := by
    rw [byteParity_eq_parity_fromLEBytes, lE]
  have pF : byteParity (s.drop 24) =
      parity_check 64 (fromLEBytes (s.drop 24)) := by
    rw [byteParity_eq_parity_fromLEBytes, lF]
  simp only [LogEntryHeader.check_header_checksum_,
    LogEntryHeader.get_header_parity_check_res_, decHeaderAt,
    SCN.get_val_for_logservice, Nat.zero_add, List.drop_zero, h24]
  rw [hbp, pA, pB, pC, pD, pE, pF,
    parity_check_clear (fromLEBytes (s.drop 24))]
  rw [Nat.testBit_zero]
  generalize parity_check 16 (fromLEBytes (s.take 2)) = x1
  generalize parity_check 16 (fromLEBytes ((s.drop 2).take 2)) = x2
  generalize parity_check 32 (fromLEBytes ((s.drop 4).take 4)) = x3
  generalize parity_check 64 (fromLEBytes ((s.drop 8).take 8)) = x4
  generalize parity_check 64 (fromLEBytes ((s.drop 16).take 8)) = x5
  generalize parity_check 64 (2 * (fromLEBytes (s.drop 24) / 2)) = x6
  rcases Nat.mod_two_eq_zero_or_one (fromLEBytes (s.drop 24)) with hm | hm <;>
    rw [hm] <;>
    cases x1 <;> cases x2 <;> cases x3 <;> cases x4 <;> cases x5 <;>
    cases x6 <;> decide

theorem truncHeader_eq_self {g : LogEntryHeader}
    (h1 : g.magic_ < 2 ^ 16) (h2 : g.version_ < 2 ^ 16)
    (h3 : g.log_size_ < 2 ^ 32) (h4 : g.scn_.val < 2 ^ 64)
    (h5 : g.data_checksum_ < 2 ^ 64) (h6 : g.flag_ < 2 ^ 64) :
    truncHeader g = g := by
  unfold truncHeader
  rw [Nat.mod_eq_of_lt h1, Nat.mod_eq_of_lt h2, Nat.mod_eq_of_lt h3,
    Nat.mod_eq_of_lt h4, Nat.mod_eq_of_lt h5, Nat.mod_eq_of_lt h6]

/-- The byte image of a header has even total parity exactly when the stored
parity bit of the header checks out. -/
theorem byteParity_encBytes (g : LogEntryHeader) :
    (byteParity (encBytes g) = false) ↔ (g.check_header_checksum_ = true) := by
  rw [← check_checksum_trunc, ← decHeaderAt_encBytes]
  exact (byteParity_eq_of_checksum (encBytes_length g)).symm

theorem update_checksum_is_valid (g : LogEntryHeader) :
    g.update_header_checksum_.is_valid = g.is_valid := by
  unfold LogEntryHeader.update_header_checksum_
  split <;> rfl

theorem update_checksum_magic (g : LogEntryHeader) :
    g.update_header_checksum_.magic_ = g.magic_ := by
  unfold LogEntryHeader.update_header_checksum_
  split <;> rfl

theorem update_checksum_version (g : LogEntryHeader) :
    g.update_header_checksum_.version_ = g.version_ := by
  unfold LogEntryHeader.update_header_checksum_
  split <;> rfl

theorem update_checksum_log_size (g : LogEntryHeader) :
    g.update_header_checksum_.log_size_ = g.log_size_ := by
  unfold LogEntryHeader.update_header_checksum_
  split <;> rfl

theorem update_checksum_scn (g : LogEntryHeader) :
    g.update_header_checksum_.scn_ = g.scn_ := by
  unfold LogEntryHeader.update_header_checksum_
  split <;> rfl

theorem update_checksum_data (g : LogEntryHeader) :
    g.update_header_checksum_.data_checksum_ = g.data_checksum_ := by
  unfold LogEntryHeader.update_header_checksum_
  split <;> rfl

theorem update_checksum_flag (g : LogEntryHeader) :
    g.update_header_checksum_.flag_ = g.flag_ ∨
      g.update_header_checksum_.flag_ = g.flag_ ||| 1 := by
  unfold LogEntryHeader.update_header_checksum_
  split
  · right; rfl
  · left; rfl

theorem testBit_one_of_pos {i : Nat} (hi : 0 < i) : (1 : Nat).testBit i = false := by
  rw [show (1 : Nat) = 2 ^ 0 by norm_num, Nat.testBit_two_pow]
  simp [Nat.ne_of_lt hi]

/-! ### Claim theorems -/

/-- C3 counterexample: the original claim is false — a freshly constructed
header is not bitwise identical to a reset one, because the constructor
sets the log size to 0 while reset sets it to −1. -/
theorem c3_cex :
    LogEntryHeader.new ≠ LogEntryHeader.new.reset ∧
    int32View LogEntryHeader.new.log_size_ = 0 ∧
    int32View LogEntryHeader.new.reset.log_size_ = -1 := by
  refine ⟨by decide, by decide, by decide⟩

/-- C3 amended: a freshly constructed header has magic 0, version 0,
log size 0 (not −1), checksum 0, flag 0 and a reset sequence value;
reset restores the sentinel with log size −1; reset is idempotent; and the
fresh state differs from the reset state exactly in the log size. -/
theorem c3_reset_sentinel :
    (LogEntryHeader.new =
      { magic_ := 0, version_ := 0, log_size_ := 0,
        scn_ := ⟨SCN.OB_INVALID_SCN_VAL⟩, data_checksum_ := 0, flag_ := 0 }) ∧
    (∀ h : LogEntryHeader,
      h.reset =
        { magic_ := 0, version_ := 0, log_size_ := 2 ^ 32 - 1,
          scn_ := ⟨SCN.OB_INVALID_SCN_VAL⟩, data_checksum_ := 0, flag_ := 0 } ∧
      int32View h.reset.log_size_ = -1 ∧
      h.reset.reset = h.reset) ∧
    LogEntryHeader.new ≠ LogEntryHeader.new.reset := by
  refine ⟨rfl, fun h => ⟨rfl, ?_, rfl⟩, by decide⟩
  show int32View (2 ^ 32 - 1) = -1
  decide

/-- C3 witness. -/
theorem c3_witness :
    LogEntryHeader.new.reset =
      { magic_ := 0, version_ := 0, log_size_ := 2 ^ 32 - 1,
        scn_ := ⟨SCN.OB_INVALID_SCN_VAL⟩, data_checksum_ := 0, flag_ := 0 } ∧
    int32View LogEntryHeader.new.reset.log_size_ = -1 ∧
    LogEntryHeader.new.reset.reset = LogEntryHeader.new.reset :=
  c3_reset_sentinel.2.1 LogEntryHeader.new

/-- C5: generate_header fails with the argument error if and only if the
payload pointer is null, the length is non-positive or the sequence value
is invalid, and on such a failure the header is left unmodified. -/
theorem c5_generate_args (h : LogEntryHeader) (log_data : Option (List Nat))
    (data_len : Int) (scn : SCN) :
    ((h.generate_header log_data data_len scn).1 = OB_INVALID_ARGUMENT ↔
      (log_data = none ∨ data_len ≤ 0 ∨ scn.is_valid = false)) ∧
    ((h.generate_header log_data data_len scn).1 = OB_INVALID_ARGUMENT →
      (h.generate_header log_data data_len scn).2 = h) := by
  cases log_data with
  | none => simp [LogEntryHeader.generate_header]
  | some l =>
    simp only [LogEntryHeader.generate_header]
    split
    · rename_i hc
      exact ⟨by simp [hc], fun _ => rfl⟩
    · rename_i hc
      simp only [not_or] at hc
      constructor
      · simp [hc.1, hc.2]
      · intro habs
        simp at habs

/-- C5 witness. -/
theorem c5_witness :
    ((LogEntryHeader.new.generate_header none 0 SCN.new).1 = OB_INVALID_ARGUMENT ↔
      ((none : Option (List Nat)) = none ∨ (0 : Int) ≤ 0 ∨
        SCN.new.is_valid = false)) ∧
    ((LogEntryHeader.new.generate_header none 0 SCN.new).1 = OB_INVALID_ARGUMENT →
      (LogEntryHeader.new.generate_header none 0 SCN.new).2 = LogEntryHeader.new) :=
  c5_generate_args LogEntryHeader.new none 0 SCN.new

/-- C6: the header-checksum check holds exactly when bit 0 of the flag
equals the XOR of the bit parities of magic, version, log size, the
sequence value, the data checksum and the flag with bit 0 cleared. -/
theorem c6_checksum_formula (h : LogEntryHeader) :
    h.check_header_checksum_ = true ↔
      h.flag_.testBit 0 =
        Bool.xor (parity_check 16 h.magic_)
          (Bool.xor (parity_check 16 h.version_)
            (Bool.xor (parity_check 32 h.log_size_)
              (Bool.xor (parity_check 64 h.scn_.get_val_for_logservice)
                (Bool.xor (parity_check 64 h.data_checksum_)
                  (parity_check 64 (2 * (h.flag_ / 2))))))) := by
  have hassoc : ∀ a b c d e f : Bool,
      Bool.xor (Bool.xor (Bool.xor (Bool.xor (Bool.xor a b) c) d) e) f =
        Bool.xor a (Bool.xor b (Bool.xor c (Bool.xor d (Bool.xor e f)))) := by
    decide
  simp only [LogEntryHeader.check_header_checksum_,
    LogEntryHeader.get_header_parity_check_res_, decide_eq_true_eq]
  rw [Nat.testBit_zero]
  simp only [hassoc]
  split
  · rename_i hc
    rw [hc]
    rcases Nat.mod_two_eq_zero_or_one h.flag_ with hm | hm <;> rw [hm] <;> simp
  · rename_i hc
    rw [Bool.not_eq_true] at hc
    rw [hc]
    rcases Nat.mod_two_eq_zero_or_one h.flag_ with hm | hm <;> rw [hm] <;> simp

/-- C6 witness. -/
theorem c6_witness :
    LogEntryHeader.new.check_header_checksum_ = true ↔
      LogEntryHeader.new.flag_.testBit 0 =
        Bool.xor (parity_check 16 LogEntryHeader.new.magic_)
          (Bool.xor (parity_check 16 LogEntryHeader.new.version_)
            (Bool.xor (parity_check 32 LogEntryHeader.new.log_size_)
              (Bool.xor (parity_check 64 LogEntryHeader.new.scn_.get_val_for_logservice)
                (Bool.xor (parity_check 64 LogEntryHeader.new.data_checksum_)
                  (parity_check 64 (2 * (LogEntryHeader.new.flag_ / 2))))))) :=
  c6_checksum_formula LogEntryHeader.new

/-- C7: check_integrity returns true exactly when the payload is non-null
with positive length, the magic matches, the header parity checks out and
the recomputed payload checksum equals the stored one; it inspects neither
the log size nor the sequence value. -/
theorem c7_check_integrity (h : LogEntryHeader) (buf : Option (List Nat))
    (data_len : Int) :
    h.check_integrity buf data_len = true ↔
      ∃ l, buf = some l ∧ 0 < data_len ∧
        h.magic_ % 2 ^ 16 = LogEntryHeader.MAGIC ∧
        h.check_header_checksum_ = true ∧
        h.data_checksum_ % 2 ^ 64 = ob_crc64 (l.take data_len.toNat) := by
  cases buf with
  | none => simp [LogEntryHeader.check_integrity]
  | some l =>
    simp only [LogEntryHeader.check_integrity]
    split
    · rename_i hd
      constructor
      · intro habs; simp at habs
      · rintro ⟨l2, -, hpos, -⟩
        omega
    · split
      · rename_i hd hmagic
        constructor
        · intro habs; simp at habs
        · rintro ⟨l2, -, -, hmag, -⟩
          exact absurd hmag.symm hmagic
      · split
        · rename_i hd hmagic hck
          constructor
          · intro habs; simp at habs
          · rintro ⟨l2, -, -, -, hcks, -⟩
            simp [hcks] at hck
        · rename_i hd hmagic hck
          rw [not_ne_iff] at hmagic
          rw [Bool.not_eq_false] at hck
          constructor
          · intro hdec
            exact ⟨l, rfl, by omega, hmagic.symm, hck, of_decide_eq_true hdec⟩
          · rintro ⟨l2, hl2, -, -, -, hcrc⟩
            have hl : l2 = l := by
              injection hl2 with hx
              exact hx.symm
            subst hl
            exact decide_eq_true hcrc

/-- C7 witness. -/
theorem c7_witness :
    LogEntryHeader.new.check_integrity none 0 = true ↔
      ∃ l, (none : Option (List Nat)) = some l ∧ (0 : Int) < 0 ∧
        LogEntryHeader.new.magic_ % 2 ^ 16 = LogEntryHeader.MAGIC ∧
        LogEntryHeader.new.check_header_checksum_ = true ∧
        LogEntryHeader.new.data_checksum_ % 2 ^ 64 =
          ob_crc64 (l.take (0 : Int).toNat) :=
  c7_check_integrity LogEntryHeader.new none 0

/-- C8: on any serialize failure the caller cursor is unchanged; on success
it advances by exactly the full encoded header size of 32 bytes. -/
theorem c8_serialize_pos (h : LogEntryHeader) (buf : Option (List Nat))
    (pos : Nat) :
    ((h.serialize buf pos).1 ≠ OB_SUCCESS → (h.serialize buf pos).2.2 = pos) ∧
    ((h.serialize buf pos).1 = OB_SUCCESS →
      (h.serialize buf pos).2.2 = pos + 32) := by
  rcases serialize_result h buf pos with ⟨h1, h2⟩ | ⟨h1, h2⟩
  · exact ⟨fun hc => absurd h1 hc, fun _ => h2⟩
  · exact ⟨fun _ => h2, fun hc => absurd hc h1⟩

/-- C8 witness. -/
theorem c8_witness :
    ((LogEntryHeader.new.serialize none 0).1 ≠ OB_SUCCESS →
      (LogEntryHeader.new.serialize none 0).2.2 = 0) ∧
    ((LogEntryHeader.new.serialize none 0).1 = OB_SUCCESS →
      (LogEntryHeader.new.serialize none 0).2.2 = 0 + 32) :=
  c8_serialize_pos LogEntryHeader.new none 0

/-- C9: a successful serialize advances the cursor by exactly
get_serialize_size. -/
theorem c9_serialize_size (h : LogEntryHeader) (buf : Option (List Nat))
    (pos : Nat) (b2 : Option (List Nat)) (p2 : Nat)
    (hs : h.serialize buf pos = (OB_SUCCESS, b2, p2)) :
    p2 = pos + h.get_serialize_size := by
  cases buf with
  | none => simp [LogEntryHeader.serialize] at hs
  | some b =>
    obtain ⟨-, -, hp⟩ := serialize_eq_success hs
    rw [hp]
    simp [LogEntryHeader.get_serialize_size, encoded_length_i16,
      encoded_length_i32, encoded_length_i64, SCN.get_fixed_serialize_size]

/-- C9 witness. -/
theorem c9_witness : (32 : Nat) = 0 + LogEntryHeader.new.get_serialize_size :=
  c9_serialize_size LogEntryHeader.new (some (List.replicate 32 0)) 0
    (some [0, 0, 0, 0, 0, 0, 0, 0, 255, 255, 255, 255, 255, 255, 255, 255,
      0, 0, 0, 0, 0, 0, 0, 0, 0, 0, 0, 0, 0, 0, 0, 0]) 32 (by decide)

theorem update_flag_or (g : LogEntryHeader) :
    g.update_header_checksum_.flag_ =
      (g.flag_ ||| (if g.get_header_parity_check_res_ then 1 else 0)) := by
  by_cases hp : g.get_header_parity_check_res_ <;>
    simp [LogEntryHeader.update_header_checksum_, hp]

theorem update_flag_back (g : LogEntryHeader) :
    ({ g.update_header_checksum_ with flag_ := g.flag_ } : LogEntryHeader) = g := by
  by_cases hp : g.get_header_parity_check_res_ <;>
    simp [LogEntryHeader.update_header_checksum_, hp]

/-- C10: a successful generate_header never clears a flag bit — the new
flag is the old flag OR-ed with the freshly computed parity bit (computed
over the newly assigned fields with the old flag, bit 0 cleared), bits 1
through 63 are unchanged, and a pre-set bit 0 stays set. -/
theorem c10_generate_flag (h : LogEntryHeader) (log_data : Option (List Nat))
    (data_len : Int) (scn : SCN) (h2 : LogEntryHeader)
    (hg : h.generate_header log_data data_len scn = (OB_SUCCESS, h2)) :
    h2.flag_ = (h.flag_ |||
      (if ({ h2 with flag_ := h.flag_ } : LogEntryHeader).get_header_parity_check_res_
        then 1 else 0)) ∧
    (∀ i, 1 ≤ i → i ≤ 63 → h2.flag_.testBit i = h.flag_.testBit i) ∧
    (h.flag_.testBit 0 = true → h2.flag_.testBit 0 = true) := by
  cases log_data with
  | none => simp [LogEntryHeader.generate_header] at hg
  | some l =>
    obtain ⟨-, -, hh⟩ := generate_eq_success hg
    subst hh
    set g : LogEntryHeader :=
      { h with magic_ := LogEntryHeader.MAGIC,
               version_ := LOG_ENTRY_HEADER_VERSION,
               log_size_ := (data_len % 2 ^ 32).toNat,
               scn_ := scn,
               data_checksum_ := ob_crc64 (l.take data_len.toNat) } with hgdef
    have hgf : g.flag_ = h.flag_ := by rw [hgdef]
    rw [← hgf]
    refine ⟨?_, ?_, ?_⟩
    · rw [update_flag_back, update_flag_or]
    · intro i h1 h63
      rw [update_flag_or]
      by_cases hp : g.get_header_parity_check_res_ <;>
        simp [hp, Nat.testBit_or, testBit_one_of_pos (by omega : 0 < i)]
    · intro hb0
      rw [update_flag_or]
      by_cases hp : g.get_header_parity_check_res_ <;>
        simp [hp, Nat.testBit_or, hb0]

set_option maxRecDepth 4000 in
/-- C10 witness. -/
theorem c10_witness :
    ({ magic_ := 19528, version_ := 1, log_size_ := 3, scn_ := ⟨42⟩,
       data_checksum_ := 17426, flag_ := 1 } : LogEntryHeader).flag_ =
      (LogEntryHeader.new.flag_ |||
        (if ({ magic_ := 19528, version_ := 1, log_size_ := 3, scn_ := ⟨42⟩,
               data_checksum_ := 17426, flag_ := LogEntryHeader.new.flag_ } :
            LogEntryHeader).get_header_parity_check_res_
          then 1 else 0)) ∧
    (∀ i, 1 ≤ i → i ≤ 63 →
      ({ magic_ := 19528, version_ := 1, log_size_ := 3, scn_ := ⟨42⟩,
         data_checksum_ := 17426, flag_ := 1 } : LogEntryHeader).flag_.testBit i =
        LogEntryHeader.new.flag_.testBit i) ∧
    (LogEntryHeader.new.flag_.testBit 0 = true →
      ({ magic_ := 19528, version_ := 1, log_size_ := 3, scn_ := ⟨42⟩,
         data_checksum_ := 17426, flag_ := 1 } : LogEntryHeader).flag_.testBit 0 = true) :=
  c10_generate_flag LogEntryHeader.new (some [1, 2, 3]) 3 ⟨42⟩
    { magic_ := 19528, version_ := 1, log_size_ := 3, scn_ := ⟨42⟩,
      data_checksum_ := 17426, flag_ := 1 } (by decide)

/-- C4 counterexample: the original claim is false at a zero-length buffer —
deserialize rejects it with the argument error, not the buffer error. -/
theorem c4_cex :
    (LogEntryHeader.new.deserialize (some []) 0).1 = OB_INVALID_ARGUMENT ∧
    (LogEntryHeader.new.deserialize (some []) 0).1 ≠ OB_BUF_NOT_ENOUGH := by
  refine ⟨by decide, by decide⟩

/-- C4 amended: for a non-null buffer of positive length whose remaining
length past the cursor is below the 32-byte header size, deserialize fails
with the buffer error — never the invalid-data error — and the caller
cursor is unchanged; a null buffer or a zero-length buffer instead fails
with the argument error, also leaving the cursor unchanged. -/
theorem c4_truncation (h : LogEntryHeader) (b : List Nat) (pos : Nat) :
    (b.length ≠ 0 → b.length < pos + 32 →
      (h.deserialize (some b) pos).1 = OB_BUF_NOT_ENOUGH ∧
      (h.deserialize (some b) pos).1 ≠ OB_INVALID_DATA ∧
      (h.deserialize (some b) pos).2.2 = pos) ∧
    h.deserialize (some []) pos = (OB_INVALID_ARGUMENT, h, pos) ∧
    h.deserialize none pos = (OB_INVALID_ARGUMENT, h, pos) := by
  refine ⟨fun hne hshort => ?_, by simp [LogEntryHeader.deserialize], rfl⟩
  simp only [LogEntryHeader.deserialize, if_neg hne]
  split
  · exact ⟨rfl, by simp, rfl⟩
  rename_i m p1 hd1
  split
  · exact ⟨rfl, by simp, rfl⟩
  rename_i v p2 hd2
  split
  · exact ⟨rfl, by simp, rfl⟩
  rename_i sz p3 hd3
  split
  · exact ⟨rfl, by simp, rfl⟩
  rename_i sc p4 hd4
  split
  · exact ⟨rfl, by simp, rfl⟩
  rename_i dc p5 hd5
  split
  · exact ⟨rfl, by simp, rfl⟩
  rename_i fl p6 hd6
  exfalso
  obtain ⟨a1, -, c1⟩ := decode_fixed_eq_some hd1
  obtain ⟨a2, -, c2⟩ := decode_fixed_eq_some hd2
  obtain ⟨a3, -, c3⟩ := decode_fixed_eq_some hd3
  obtain ⟨a4, -, c4⟩ := decode_fixed_eq_some hd4
  obtain ⟨a5, -, c5⟩ := decode_fixed_eq_some hd5
  obtain ⟨a6, -, c6⟩ := decode_fixed_eq_some hd6
  omega

/-- C4 witness. -/
theorem c4_witness :
    (LogEntryHeader.new.deserialize (some [7]) 0).1 = OB_BUF_NOT_ENOUGH ∧
    (LogEntryHeader.new.deserialize (some [7]) 0).1 ≠ OB_INVALID_DATA ∧
    (LogEntryHeader.new.deserialize (some [7]) 0).2.2 = 0 :=
  (c4_truncation LogEntryHeader.new [7] 0).1 (by decide) (by decide)

theorem flipBitAt_middle {pre mid post : List Nat} {pos k : Nat}
    (hpre : pre.length = pos) (hmid : mid.length = 32) (hk : k < 256) :
    flipBitAt (pre ++ mid ++ post) (8 * pos + k) =
      pre ++ flipBitAt mid k ++ post := by
  have hj : (8 * pos + k) / 8 = pos + k / 8 := by omega
  have hj8 : (8 * pos + k) % 8 = k % 8 := by omega
  have hk8 : k / 8 < 32 := by omega
  unfold flipBitAt
  rw [hj, hj8, List.append_assoc, List.append_assoc]
  have hget : (pre ++ (mid ++ post)).getD (pos + k / 8) 0 = mid.getD (k / 8) 0 := by
    rw [List.getD_eq_getElem?_getD, List.getD_eq_getElem?_getD,
      List.getElem?_append_right (show pre.length ≤ pos + k / 8 by omega),
      hpre, Nat.add_sub_cancel_left,
      List.getElem?_append_left (show k / 8 < mid.length by omega)]
  rw [hget,
    List.set_append_right _ _ (show pre.length ≤ pos + k / 8 by omega),
    hpre, Nat.add_sub_cancel_left,
    List.set_append_left _ _ (show k / 8 < mid.length by omega)]

set_option maxRecDepth 8000 in
/-- C1 counterexample: the original claim is false when the starting header
state has bit 0 of the flag already set — generate and serialize succeed,
but deserialize on the serialized bytes fails with the invalid-data error
(the stored parity bit stays 1 while the recomputed parity is 0). -/
theorem c1_cex :
    ({ magic_ := 0, version_ := 0, log_size_ := 0,
       scn_ := ⟨SCN.OB_INVALID_SCN_VAL⟩, data_checksum_ := 0,
       flag_ := 1 } : LogEntryHeader).generate_header (some [0]) 1 ⟨1⟩ =
      (OB_SUCCESS, { magic_ := 19528, version_ := 1, log_size_ := 1,
                     scn_ := ⟨1⟩, data_checksum_ := 0, flag_ := 1 }) ∧
    ({ magic_ := 19528, version_ := 1, log_size_ := 1, scn_ := ⟨1⟩,
       data_checksum_ := 0, flag_ := 1 } : LogEntryHeader).serialize
        (some (List.replicate 32 0)) 0 =
      (OB_SUCCESS, some [72, 76, 1, 0, 1, 0, 0, 0, 1, 0, 0, 0, 0, 0, 0, 0,
        0, 0, 0, 0, 0, 0, 0, 0, 1, 0, 0, 0, 0, 0, 0, 0], 32) ∧
    (LogEntryHeader.new.deserialize
      (some [72, 76, 1, 0, 1, 0, 0, 0, 1, 0, 0, 0, 0, 0, 0, 0,
        0, 0, 0, 0, 0, 0, 0, 0, 1, 0, 0, 0, 0, 0, 0, 0]) 0).1 =
      OB_INVALID_DATA := by
  refine ⟨by decide, by decide, by decide⟩

/-- C1 amended: starting from any header state whose flag has bit 0 clear
(and whose raw flag fits 64 bits), for any payload of positive length below
2^31 and any sequence value fitting 64 bits, a successful generate_header
followed by a successful serialize followed by deserialize into a fresh
header succeeds, yields a header equal to the generating one on all six
fields, and the deserialized header passes check_header_integrity. -/
theorem c1_round_trip (h : LogEntryHeader) (l : List Nat) (data_len : Int)
    (scn : SCN) (h2 : LogEntryHeader) (b : List Nat) (ob : Option (List Nat))
    (p2 pos : Nat)
    (hbit : h.flag_.testBit 0 = false) (hflag : h.flag_ < 2 ^ 64)
    (hscn : scn.val < 2 ^ 64) (hlen : data_len < 2 ^ 31)
    (hg : h.generate_header (some l) data_len scn = (OB_SUCCESS, h2))
    (hs : h2.serialize (some b) pos = (OB_SUCCESS, ob, p2)) :
    ∃ b2, ob = some b2 ∧
      LogEntryHeader.new.deserialize (some b2) pos = (OB_SUCCESS, h2, pos + 32) ∧
      h2.check_header_integrity = true := by
  obtain ⟨hpos, hval, hh⟩ := generate_eq_success hg
  obtain ⟨hble, hob, hp2⟩ := serialize_eq_success hs
  subst hh
  set g : LogEntryHeader :=
    { h with magic_ := LogEntryHeader.MAGIC,
             version_ := LOG_ENTRY_HEADER_VERSION,
             log_size_ := (data_len % 2 ^ 32).toNat,
             scn_ := scn,
             data_checksum_ := ob_crc64 (l.take data_len.toNat) } with hgdef
  have e1 : g.update_header_checksum_.magic_ = LogEntryHeader.MAGIC := by
    rw [update_checksum_magic, hgdef]
  have e2 : g.update_header_checksum_.version_ = LOG_ENTRY_HEADER_VERSION := by
    rw [update_checksum_version, hgdef]
  have e3 : g.update_header_checksum_.log_size_ = (data_len % 2 ^ 32).toNat := by
    rw [update_checksum_log_size, hgdef]
  have e4 : g.update_header_checksum_.scn_ = scn := by
    rw [update_checksum_scn, hgdef]
  have e5 : g.update_header_checksum_.data_checksum_ =
      ob_crc64 (l.take data_len.toNat) := by
    rw [update_checksum_data, hgdef]
  have htr : truncHeader g.update_header_checksum_ = g.update_header_checksum_ := by
    apply truncHeader_eq_self
    · rw [e1]; decide
    · rw [e2]; decide
    · rw [e3]; omega
    · rw [e4]; exact hscn
    · rw [e5]; exact ob_crc64_lt _
    · rcases update_checksum_flag g with hf | hf <;> rw [hf]
      · exact hflag
      · exact Nat.or_lt_two_pow hflag (by norm_num)
  have hck : g.update_header_checksum_.check_header_checksum_ = true :=
    update_checksum_sound (show g.flag_.testBit 0 = false from hbit)
  have hi : (0 : Int) < int32View ((data_len % 2 ^ 32).toNat) := by
    have h1 : (data_len % 2 ^ 32).toNat < 2 ^ 31 := by omega
    have h2 : 0 < (data_len % 2 ^ 32).toNat := by omega
    generalize (data_len % 2 ^ 32).toNat = q at h1 h2
    unfold int32View
    rw [Nat.mod_eq_of_lt (show q < 2 ^ 32 by omega),
      if_pos (show q < 2 ^ 31 by omega)]
    exact Int.natCast_pos.mpr h2
  have hiv : g.update_header_checksum_.is_valid = true := by
    rw [update_checksum_is_valid, hgdef]
    simp only [LogEntryHeader.is_valid]
    rw [hval, decide_eq_true hi,
      decide_eq_true (show LogEntryHeader.MAGIC % 2 ^ 16 = LogEntryHeader.MAGIC
        by decide)]
    rfl
  have hint : g.update_header_checksum_.check_header_integrity = true := by
    simp [LogEntryHeader.check_header_integrity, hiv, hck]
  refine ⟨b.take pos ++ encBytes g.update_header_checksum_ ++ b.drop (pos + 32),
    hob, ?_, hint⟩
  have hlen2 : (b.take pos ++ encBytes g.update_header_checksum_ ++
      b.drop (pos + 32)).length = b.length := by
    simp [List.length_append, List.length_take, List.length_drop, encBytes_length]
    omega
  rw [deserialize_of_le (by rw [hlen2]; omega) (by rw [hlen2]; omega)]
  have hdh : decHeaderAt (b.take pos ++ encBytes g.update_header_checksum_ ++
      b.drop (pos + 32)) pos = g.update_header_checksum_ := by
    rw [List.append_assoc,
      decHeaderAt_prefix (show (b.take pos).length = pos by
        simp [List.length_take]; omega),
      decHeaderAt_append_of_le (le_of_eq (encBytes_length _).symm),
      decHeaderAt_encBytes, htr]
  rw [hdh, hint]
  simp

set_option maxRecDepth 8000 in
/-- C1 witness. -/
theorem c1_witness :
    ∃ b2, (some [72, 76, 1, 0, 3, 0, 0, 0, 42, 0, 0, 0, 0, 0, 0, 0,
        18, 68, 0, 0, 0, 0, 0, 0, 1, 0, 0, 0, 0, 0, 0, 0] :
        Option (List Nat)) = some b2 ∧
      LogEntryHeader.new.deserialize (some b2) 0 =
        (OB_SUCCESS, { magic_ := 19528, version_ := 1, log_size_ := 3,
                       scn_ := ⟨42⟩, data_checksum_ := 17426, flag_ := 1 },
          0 + 32) ∧
      ({ magic_ := 19528, version_ := 1, log_size_ := 3, scn_ := ⟨42⟩,
         data_checksum_ := 17426, flag_ := 1 } :
        LogEntryHeader).check_header_integrity = true :=
  c1_round_trip LogEntryHeader.new [1, 2, 3] 3 ⟨42⟩
    { magic_ := 19528, version_ := 1, log_size_ := 3, scn_ := ⟨42⟩,
      data_checksum_ := 17426, flag_ := 1 }
    (List.replicate 32 0)
    (some [72, 76, 1, 0, 3, 0, 0, 0, 42, 0, 0, 0, 0, 0, 0, 0,
      18, 68, 0, 0, 0, 0, 0, 0, 1, 0, 0, 0, 0, 0, 0, 0]) 32 0
    (by decide) (by decide) (by decide) (by decide) (by decide) (by decide)

set_option maxRecDepth 8000 in
/-- C2 counterexample: the original claim is false when generate_header ran
from a header state with bit 0 of the flag already set — the serialized
header then carries a wrong parity bit, and flipping bit 0 of the data
checksum field makes deserialize succeed instead of failing with the
invalid-data error. -/
theorem c2_cex :
    ({ magic_ := 0, version_ := 0, log_size_ := 0,
       scn_ := ⟨SCN.OB_INVALID_SCN_VAL⟩, data_checksum_ := 0,
       flag_ := 1 } : LogEntryHeader).generate_header (some [0]) 1 ⟨1⟩ =
      (OB_SUCCESS, { magic_ := 19528, version_ := 1, log_size_ := 1,
                     scn_ := ⟨1⟩, data_checksum_ := 0, flag_ := 1 }) ∧
    ({ magic_ := 19528, version_ := 1, log_size_ := 1, scn_ := ⟨1⟩,
       data_checksum_ := 0, flag_ := 1 } : LogEntryHeader).serialize
        (some (List.replicate 32 0)) 0 =
      (OB_SUCCESS, some [72, 76, 1, 0, 1, 0, 0, 0, 1, 0, 0, 0, 0, 0, 0, 0,
        0, 0, 0, 0, 0, 0, 0, 0, 1, 0, 0, 0, 0, 0, 0, 0], 32) ∧
    (LogEntryHeader.new.deserialize
      (some (flipBitAt [72, 76, 1, 0, 1, 0, 0, 0, 1, 0, 0, 0, 0, 0, 0, 0,
        0, 0, 0, 0, 0, 0, 0, 0, 1, 0, 0, 0, 0, 0, 0, 0] 128)) 0).1 =
      OB_SUCCESS := by
  refine ⟨by decide, by decide, by decide⟩

/-- C2 amended: for every header produced by a successful generate_header
from a starting state whose flag has bit 0 clear, and then serialized,
flipping any single bit within the 32 bytes of the six encoded fields
causes deserialize on the mutated bytes to fail with the invalid-data
error. -/
theorem c2_flip_detected (h : LogEntryHeader) (l : List Nat) (data_len : Int)
    (scn : SCN) (h2 : LogEntryHeader) (b b2 : List Nat) (p2 pos k : Nat)
    (hbit : h.flag_.testBit 0 = false)
    (hg : h.generate_header (some l) data_len scn = (OB_SUCCESS, h2))
    (hs : h2.serialize (some b) pos = (OB_SUCCESS, some b2, p2))
    (hk : k < 256) :
    (LogEntryHeader.new.deserialize (some (flipBitAt b2 (8 * pos + k))) pos).1 =
      OB_INVALID_DATA := by
  obtain ⟨hble, hob, hp2⟩ := serialize_eq_success hs
  have hb2 : b2 = b.take pos ++ encBytes h2 ++ b.drop (pos + 32) := by
    injection hob
  subst hb2
  have hpre : (b.take pos).length = pos := by
    simp [List.length_take]
    omega
  rw [flipBitAt_middle hpre (encBytes_length h2) hk]
  obtain ⟨-, -, hh⟩ := generate_eq_success hg
  have hck : h2.check_header_checksum_ = true := by
    rw [hh]
    exact update_checksum_sound hbit
  have hpar : byteParity (encBytes h2) = false := (byteParity_encBytes h2).mpr hck
  have hflip : byteParity (flipBitAt (encBytes h2) k) = true := by
    rw [byteParity_flipBitAt _ _ (by rw [encBytes_length]; omega), hpar]
    rfl
  have hlen32 : (flipBitAt (encBytes h2) k).length = 32 := by
    simp [flipBitAt, encBytes_length]
  have hchk : (decHeaderAt (flipBitAt (encBytes h2) k) 0).check_header_checksum_ =
      false := by
    have hiff := byteParity_eq_of_checksum hlen32
    rw [hflip] at hiff
    simp at hiff
    exact hiff
  have hint : (decHeaderAt (flipBitAt (encBytes h2) k) 0).check_header_integrity =
      false := by
    simp [LogEntryHeader.check_header_integrity, hchk]
  have hlenall : (b.take pos ++ flipBitAt (encBytes h2) k ++
      b.drop (pos + 32)).length = b.length := by
    simp [List.length_append, List.length_take, List.length_drop, hlen32]
    omega
  rw [deserialize_of_le (by rw [hlenall]; omega) (by rw [hlenall]; omega)]
  rw [List.append_assoc, decHeaderAt_prefix hpre,
    decHeaderAt_append_of_le (le_of_eq hlen32.symm), hint]
  simp

set_option maxRecDepth 8000 in
/-- C2 witness. -/
theorem c2_witness :
    (LogEntryHeader.new.deserialize
      (some (flipBitAt [72, 76, 1, 0, 3, 0, 0, 0, 42, 0, 0, 0, 0, 0, 0, 0,
        18, 68, 0, 0, 0, 0, 0, 0, 1, 0, 0, 0, 0, 0, 0, 0] (8 * 0 + 0))) 0).1 =
      OB_INVALID_DATA :=
  c2_flip_detected LogEntryHeader.new [1, 2, 3] 3 ⟨42⟩
    { magic_ := 19528, version_ := 1, log_size_ := 3, scn_ := ⟨42⟩,
      data_checksum_ := 17426, flag_ := 1 }
    (List.replicate 32 0)
    [72, 76, 1, 0, 3, 0, 0, 0, 42, 0, 0, 0, 0, 0, 0, 0,
      18, 68, 0, 0, 0, 0, 0, 0, 1, 0, 0, 0, 0, 0, 0, 0] 32 0 0
    (by decide) (by decide) (by decide) (by decide)

end ObPalf
